import Mathlib

/-!
Verification development for the face-photo alignment pipeline
(`faces/align.py`).

The pipeline is embedded shallowly over the real numbers (the Python code
computes with floating-point numbers; we use exact real arithmetic as the
idealized model).  Pure Python functions become Lean functions with the same
names; the OpenCV library calls (`cv2.estimateRigidTransform`,
`cv2.getAffineTransform`, `cv2.warpAffine`, `cv2.invertAffineTransform`) are
modelled from their documented mathematical behaviour; fallible steps (a
`None` transform flowing into `.dot`, `np.average` over an empty batch)
return `Option`.
-/

namespace Align

/-- A 2D point, as the pair `(x, y)` of real coordinates. -/
abbrev Point : Type := ℝ × ℝ

/-- A 2×3 affine transform matrix `[[a, b, c], [d, e, f]]`, mapping the
homogeneous point `(x, y, 1)` to `(a·x + b·y + c, d·x + e·y + f)`. -/
structure Aff where
  a : ℝ
  b : ℝ
  c : ℝ
  d : ℝ
  e : ℝ
  f : ℝ

/-- Apply a 2×3 affine transform to a point: `transform.dot([x, y, 1])`. -/
def applyAff (T : Aff) (p : Point) : Point :=
  (T.a * p.1 + T.b * p.2 + T.c, T.d * p.1 + T.e * p.2 + T.f)

/-- The 2×3 matrix of a direct similarity with linear part `[[a, -b], [b, a]]`
and translation `(tx, ty)` — the shape of matrix returned by
`cv2.estimateRigidTransform` with `fullAffine=False` (rotation, uniform
scale, translation; no shear). -/
def simAff (a b tx ty : ℝ) : Aff :=
  ⟨a, -b, tx, b, a, ty⟩

/-- `PI3 = math.pi / 3.0` (source line 28). -/
noncomputable def PI3 : ℝ := Real.pi / 3

/-- `SIN_PI3 = math.sin(PI3)` (source line 29). -/
noncomputable def SIN_PI3 : ℝ := Real.sin PI3

/-- `COS_PI3 = math.cos(PI3)` (source line 30). -/
noncomputable def COS_PI3 : ℝ := Real.cos PI3

/-- `calculate_third_equilateral_point(a, b)` (source lines 73–103): rotate
`a` around `b` by π/3 to obtain the third vertex of an equilateral
triangle. -/
noncomputable def calculate_third_equilateral_point (a b : Point) : Point :=
  (COS_PI3 * (a.1 - b.1) - SIN_PI3 * (a.2 - b.2) + b.1,
   SIN_PI3 * (a.1 - b.1) + COS_PI3 * (a.2 - b.2) + b.2)

/-- Twice the signed area of the triangle spanned by three points (the
cross product of the edge vectors from the first point). -/
def cross2 (p q r : Point) : ℝ :=
  (q.1 - p.1) * (r.2 - p.2) - (r.1 - p.1) * (q.2 - p.2)

/-- The signed-area collinearity test: the three points span a zero-area
triangle. -/
def collinear3 (p q r : Point) : Prop := cross2 p q r = 0

/-- The degeneracy guard of `cv2.estimateRigidTransform`'s RANSAC sampling,
specialised to a 3-point correspondence.  With exactly three input pairs
every RANSAC sample consists of the same three pairs, so the call fails —
returning an empty matrix, `None` in Python — exactly when the guard
rejects them: a repeated point on either side (the `FLT_EPSILON` proximity
check, idealised here to exact equality) or the relative collinearity check
`|cross| < 0.01·‖d1‖·‖d2‖` failing on either side.  Both rejection causes
are order-independent in the cases this development decides (an exactly
collinear triple is rejected under every sample order because its cross
term is zero and the threshold positive; the well-separated equilateral
triples of passes 1–2 are accepted under every order because all their side
lengths are equal), so the random sample order is immaterial. -/
noncomputable def ransacDegenerate (a0 a1 a2 b0 b1 b2 : Point) : Prop :=
  a0 = a1 ∨ a0 = a2 ∨ a1 = a2 ∨ b0 = b1 ∨ b0 = b2 ∨ b1 = b2 ∨
  |cross2 a0 a1 a2| < 0.01 * Real.sqrt ((a1.1 - a0.1) ^ 2 + (a1.2 - a0.2) ^ 2)
      * Real.sqrt ((a2.1 - a0.1) ^ 2 + (a2.2 - a0.2) ^ 2) ∨
  |cross2 b0 b1 b2| < 0.01 * Real.sqrt ((b1.1 - b0.1) ^ 2 + (b1.2 - b0.2) ^ 2)
      * Real.sqrt ((b2.1 - b0.1) ^ 2 + (b2.2 - b0.2) ^ 2)

noncomputable instance (a0 a1 a2 b0 b1 b2 : Point) :
    Decidable (ransacDegenerate a0 a1 a2 b0 b1 b2) := by
  unfold ransacDegenerate
  infer_instance

/-- x-coordinate of the centroid of a point list. -/
noncomputable def centroidX (l : List Point) : ℝ := (l.map Prod.fst).sum / l.length

/-- y-coordinate of the centroid of a point list. -/
noncomputable def centroidY (l : List Point) : ℝ := (l.map Prod.snd).sum / l.length

/-- Centered sum of squares of a point list — the denominator of the
least-squares similarity fit, zero exactly when the fit is degenerate. -/
noncomputable def lsqDen (src : List Point) : ℝ :=
  (src.map (fun p => (p.1 - centroidX src) ^ 2 + (p.2 - centroidY src) ^ 2)).sum

/-- Numerator of the `a` (cos-like) coefficient of the least-squares
similarity fit. -/
noncomputable def lsqNa (src tgt : List Point) : ℝ :=
  ((src.zip tgt).map (fun pq =>
    (pq.1.1 - centroidX src) * (pq.2.1 - centroidX tgt)
      + (pq.1.2 - centroidY src) * (pq.2.2 - centroidY tgt))).sum

/-- Numerator of the `b` (sin-like) coefficient of the least-squares
similarity fit. -/
noncomputable def lsqNb (src tgt : List Point) : ℝ :=
  ((src.zip tgt).map (fun pq =>
    (pq.1.1 - centroidX src) * (pq.2.2 - centroidY tgt)
      - (pq.1.2 - centroidY src) * (pq.2.1 - centroidX tgt))).sum

/-- Model of `cv2.estimateRigidTransform(src, dst, fullAffine=False)` at
the exactly-3-point correspondences `align.py` passes (both call sites
supply three pairs: two extended by the equilateral third point, or the
three slots of pass 2; other shapes are outside the modelled scope).  With
three input pairs the RANSAC loop either rejects every sample — through
`ransacDegenerate`, or through the singular normal equations of the fit —
and returns an empty matrix, `None` in Python, modelled by `none`; or it
accepts the sample and fits all three pairs, returning the least-squares
direct similarity (linear part `[[a, -b], [b, a]]` plus translation),
written here in centroid form. -/
noncomputable def estimateRigidTransform (src tgt : List Point) : Option Aff :=
  match src, tgt with
  | [a0, a1, a2], [b0, b1, b2] =>
    if ransacDegenerate a0 a1 a2 b0 b1 b2 then none
    else if lsqDen [a0, a1, a2] = 0 then none
    else
      some (simAff (lsqNa [a0, a1, a2] [b0, b1, b2] / lsqDen [a0, a1, a2])
        (lsqNb [a0, a1, a2] [b0, b1, b2] / lsqDen [a0, a1, a2])
        (centroidX [b0, b1, b2]
          - (lsqNa [a0, a1, a2] [b0, b1, b2] / lsqDen [a0, a1, a2] * centroidX [a0, a1, a2]
            - lsqNb [a0, a1, a2] [b0, b1, b2] / lsqDen [a0, a1, a2] * centroidY [a0, a1, a2]))
        (centroidY [b0, b1, b2]
          - (lsqNb [a0, a1, a2] [b0, b1, b2] / lsqDen [a0, a1, a2] * centroidX [a0, a1, a2]
            + lsqNa [a0, a1, a2] [b0, b1, b2] / lsqDen [a0, a1, a2] * centroidY [a0, a1, a2])))
  | _, _ => none

/-- Model of `cv2.getAffineTransform(src, dst)`: the exact solution (by
Cramer's rule) of the six linear equations making the 2×3 affine matrix map
the three source points to the three target points.  When the three source
points are collinear the system is singular; OpenCV's `solve` then reports
failure and zeroes its output, and `getAffineTransform` ignores the failure
flag and returns that all-zero matrix instead of raising an error. -/
noncomputable def getAffineTransform (s1 s2 s3 t1 t2 t3 : Point) : Aff :=
  if (s2.1 - s1.1) * (s3.2 - s1.2) - (s3.1 - s1.1) * (s2.2 - s1.2) = 0 then
    ⟨0, 0, 0, 0, 0, 0⟩
  else
    let det := (s2.1 - s1.1) * (s3.2 - s1.2) - (s3.1 - s1.1) * (s2.2 - s1.2)
    let a := ((t2.1 - t1.1) * (s3.2 - s1.2) - (t3.1 - t1.1) * (s2.2 - s1.2)) / det
    let b := ((t3.1 - t1.1) * (s2.1 - s1.1) - (t2.1 - t1.1) * (s3.1 - s1.1)) / det
    let d := ((t2.2 - t1.2) * (s3.2 - s1.2) - (t3.2 - t1.2) * (s2.2 - s1.2)) / det
    let e := ((t3.2 - t1.2) * (s2.1 - s1.1) - (t2.2 - t1.2) * (s3.1 - s1.1)) / det
    ⟨a, b, t1.1 - a * s1.1 - b * s1.2, d, e, t1.2 - d * s1.1 - e * s1.2⟩

/-- `calculate_transform(starting_point, target_point)` (source lines
106–131): when only two correspondence points are given, both sides are
extended by their equilateral third point, then the rigid (similarity)
estimator is invoked.  A degenerate estimate surfaces as `None` in the
source (no exception is raised); modelled by `none`. -/
noncomputable def calculate_transform (starting_point target_point : List Point) :
    Option Aff :=
  let sp := if starting_point.length = 2 then
      starting_point ++ [calculate_third_equilateral_point
        (starting_point.getD 0 (0, 0)) (starting_point.getD 1 (0, 0))]
    else starting_point
  let tp := if target_point.length = 2 then
      target_point ++ [calculate_third_equilateral_point
        (target_point.getD 0 (0, 0)) (target_point.getD 1 (0, 0))]
    else target_point
  estimateRigidTransform sp tp

/-- `calculate_pupil_points(output_width, output_height)` (source lines
134–148).  `int(...)` truncation of these positive products is `⌊·⌋`. -/
noncomputable def calculate_pupil_points (output_width output_height : ℝ) :
    Point × Point :=
  ((((⌊output_width * 0.35⌋ : ℤ) : ℝ), ((⌊output_height * 0.4⌋ : ℤ) : ℝ)),
   (((⌊output_width * (1 - 0.35)⌋ : ℤ) : ℝ), ((⌊output_height * 0.4⌋ : ℤ) : ℝ)))

/-- The canonical pupil targets used by `main`: canvas 600 × 800
(source lines 152–155). -/
noncomputable def pupil_points : Point × Point := calculate_pupil_points 600 800

/-- An image buffer: a canvas size together with the (per-channel) pixel
value at integer coordinates `(x, y)`; every channel of the 3-channel
`float32` buffers of the source behaves identically under the modelled
operations, so one real value per pixel is carried. -/
structure Image where
  w : ℕ
  h : ℕ
  pix : ℤ → ℤ → ℝ

/-- Read a source pixel for interpolation: outside the image bounds the
default `cv2.warpAffine` border mode supplies the constant 0. -/
def sampleAt (I : Image) (x y : ℤ) : ℝ :=
  if 0 ≤ x ∧ x < (I.w : ℤ) ∧ 0 ≤ y ∧ y < (I.h : ℤ) then I.pix x y else 0

/-- Bilinear interpolation of an image at a real-valued location, the
default `cv2.warpAffine` sampling. -/
noncomputable def bilinear (I : Image) (p : Point) : ℝ :=
  let x0 := ⌊p.1⌋
  let y0 := ⌊p.2⌋
  let fx := p.1 - x0
  let fy := p.2 - y0
  (1 - fx) * (1 - fy) * sampleAt I x0 y0 + fx * (1 - fy) * sampleAt I (x0 + 1) y0
    + (1 - fx) * fy * sampleAt I x0 (y0 + 1) + fx * fy * sampleAt I (x0 + 1) (y0 + 1)

/-- Model of `cv2.invertAffineTransform`: invert the 2×3 matrix; OpenCV
replaces `1/det` by 0 for a singular matrix, which coincides with Lean's
`0⁻¹ = 0`. -/
noncomputable def invertAffineTransform (T : Aff) : Aff :=
  let Di := (T.a * T.e - T.b * T.d)⁻¹
  ⟨T.e * Di, -T.b * Di, -(T.e * Di * T.c + -T.b * Di * T.f),
   -T.d * Di, T.a * Di, -(-T.d * Di * T.c + T.a * Di * T.f)⟩

/-- Model of `cv2.warpAffine(image, M, (w, h))`: each destination pixel is
bilinearly sampled from the source image at the inverse-mapped location. -/
noncomputable def warpAffine (I : Image) (T : Aff) (w h : ℕ) : Image :=
  ⟨w, h, fun x y => bilinear I (applyAff (invertAffineTransform T) ((x : ℝ), (y : ℝ)))⟩

/-- Sequential per-photo loop propagating the first failure, as in `main`
(a `None` transform crashes the loop at `.dot`). -/
def mapOpt {α β : Type} (g : α → Option β) : List α → Option (List β)
  | [] => some []
  | x :: xs =>
    match g x, mapOpt g xs with
    | some y, some ys => some (y :: ys)
    | _, _ => none

/-- One iteration of the pass-1 loop of `main` (source lines 161–167):
estimate the rigid transform taking landmark slots `[0]` and `[3]` to the
canonical pupil targets and apply it to every landmark point of the
photo. -/
noncomputable def pass1_one (image_points : List Point) : Option (Aff × List Point) :=
  (calculate_transform [image_points.getD 0 (0, 0), image_points.getD 3 (0, 0)]
      [pupil_points.1, pupil_points.2]).map
    (fun T => (T, image_points.map (applyAff T)))

/-- Pass 1 over the whole batch (source lines 160–167). -/
noncomputable def pass1 (all_images_points : List (List Point)) :
    Option (List (Aff × List Point)) :=
  mapOpt pass1_one all_images_points

/-- `averaged_points = np.average(np.array(transformed_images_points), axis=0)`
(source line 170): the per-slot arithmetic mean across photos.  Over an
empty batch `np.average` yields an invalid (0-dimensional NaN) value whose
first use crashes the run before any output is produced; modelled by
`none`. -/
noncomputable def averagedPoints : List (List Point) → Option (List Point)
  | [] => none
  | t :: rest =>
    let tps := t :: rest
    let n : ℝ := tps.length
    some ((List.range t.length).map (fun j =>
      ((tps.map (fun tp => (tp.getD j (0, 0)).1)).sum / n,
       (tps.map (fun tp => (tp.getD j (0, 0)).2)).sum / n)))

/-- One iteration of the pass-2 loop of `main` (source lines 174–179):
re-estimate a rigid transform from the pass-1 transformed slots
`[0], [3], [4]` to the averaged slots.  The result is only appended to
`all_transforms2`, which no later code reads. -/
noncomputable def pass2_one (image_points averaged : List Point) : Option Aff :=
  calculate_transform
    [image_points.getD 0 (0, 0), image_points.getD 3 (0, 0), image_points.getD 4 (0, 0)]
    [averaged.getD 0 (0, 0), averaged.getD 3 (0, 0), averaged.getD 4 (0, 0)]

/-- One iteration of the pass-3 loop of `main` (source lines 185–189): the
exact affine solve from the original landmark slots `[0], [3], [4]` to the
averaged slots `[0], [3], [4]`. -/
noncomputable def pass3_one (image_points averaged : List Point) : Aff :=
  getAffineTransform
    (image_points.getD 0 (0, 0)) (image_points.getD 3 (0, 0)) (image_points.getD 4 (0, 0))
    (averaged.getD 0 (0, 0)) (averaged.getD 3 (0, 0)) (averaged.getD 4 (0, 0))

/-- One input photo: its landmark coordinate list and its image buffer. -/
structure PhotoRecord where
  points : List Point
  image : Image

/-- Everything `main` produces past the loading stage: the per-photo warped
output images, the accumulated average image, the final (pass-3) transforms,
and the averaged landmark set. -/
structure PipelineOutput where
  outputs : List Image
  average : ℤ → ℤ → ℝ
  transforms3 : List Aff
  avgPts : List Point

/-- The average image accumulated by `main`'s output loop (source lines
181, 191–200): all-zero before the loop, `+= warped / image_count` per
photo. -/
noncomputable def compositeAverage (warped : List Image) (image_count : ℕ) :
    ℤ → ℤ → ℝ :=
  fun x y => (warped.map (fun W => W.pix x y / (image_count : ℝ))).sum

/-- The alignment pipeline of `main` (source lines 151–205) after loading:
pass 1 with the pupil targets, landmark averaging, the (unused) pass-2
estimates, the pass-3 exact transforms from the original landmarks, and the
single warp plus averaging of the output loop. -/
noncomputable def runPipeline (photos : List PhotoRecord) : Option PipelineOutput :=
  (pass1 (photos.map PhotoRecord.points)).bind (fun p1 =>
    (averagedPoints (p1.map Prod.snd)).bind (fun averaged =>
      let _all_transforms2 := (p1.map Prod.snd).map (fun tp => pass2_one tp averaged)
      let all_transforms3 := (photos.map PhotoRecord.points).map
        (fun pts => pass3_one pts averaged)
      let warped := List.zipWith (fun r T => warpAffine r.image T 600 800)
        photos all_transforms3
      some ⟨warped, compositeAverage warped photos.length, all_transforms3, averaged⟩))

/-- The same pipeline with the pass-2 estimation loop removed — the
reference point for the claim that pass 2 influences no output. -/
noncomputable def runPipelineNoPass2 (photos : List PhotoRecord) : Option PipelineOutput :=
  (pass1 (photos.map PhotoRecord.points)).bind (fun p1 =>
    (averagedPoints (p1.map Prod.snd)).bind (fun averaged =>
      let all_transforms3 := (photos.map PhotoRecord.points).map
        (fun pts => pass3_one pts averaged)
      let warped := List.zipWith (fun r T => warpAffine r.image T 600 800)
        photos all_transforms3
      some ⟨warped, compositeAverage warped photos.length, all_transforms3, averaged⟩))

/-- The centered sum of squares of three source points — the quantity whose
vanishing makes the similarity estimation degenerate. -/
noncomputable def den3 (p1 p2 p3 : Point) : ℝ :=
  (p1.1 - (p1.1 + p2.1 + p3.1) / 3) ^ 2 + (p1.2 - (p1.2 + p2.2 + p3.2) / 3) ^ 2
    + ((p2.1 - (p1.1 + p2.1 + p3.1) / 3) ^ 2 + (p2.2 - (p1.2 + p2.2 + p3.2) / 3) ^ 2)
    + ((p3.1 - (p1.1 + p2.1 + p3.1) / 3) ^ 2 + (p3.2 - (p1.2 + p2.2 + p3.2) / 3) ^ 2)

/-- The unique direct similarity taking `p ↦ t` and `q ↦ u` (for `p ≠ q`),
in closed form. -/
noncomputable def simFromPairs (p q t u : Point) : Aff :=
  let d2 := (q.1 - p.1) ^ 2 + (q.2 - p.2) ^ 2
  let A := ((u.1 - t.1) * (q.1 - p.1) + (u.2 - t.2) * (q.2 - p.2)) / d2
  let B := ((u.2 - t.2) * (q.1 - p.1) - (u.1 - t.1) * (q.2 - p.2)) / d2
  simAff A B (t.1 - (A * p.1 - B * p.2)) (t.2 - (B * p.1 + A * p.2))

/-- The transform pass 1 actually computes for a photo: the similarity
taking its pupils to the canonical pupil targets. -/
noncomputable def pass1Sim (image_points : List Point) : Aff :=
  simFromPairs (image_points.getD 0 (0, 0)) (image_points.getD 3 (0, 0))
    pupil_points.1 pupil_points.2

/-- A photo's pass-1 transformed landmark set. -/
noncomputable def tpOf (image_points : List Point) : List Point :=
  image_points.map (applyAff (pass1Sim image_points))

/-- The final transform of a photo in a batch of copies of itself. -/
noncomputable def finalT (image_points : List Point) : Aff :=
  pass3_one image_points (tpOf image_points)

/-- A concrete 5-landmark set with distinct pupils and a non-collinear
pupil/pupil/mouth triangle, used to instantiate generic theorems. -/
def pts0 : List Point := [(0, 0), (0, 1), (1, 0), (4, 0), (2, 3)]

/-- A concrete constant-value image buffer on the 600 × 800 canvas. -/
noncomputable def imgHalf : Image := ⟨600, 800, fun _ _ => (1 : ℝ) / 2⟩

/-- The pipeline output on the concrete one-photo batch `[⟨pts0, imgHalf⟩]`. -/
noncomputable def out0 : PipelineOutput :=
  ⟨List.replicate 1 (warpAffine imgHalf (finalT pts0) 600 800),
   compositeAverage (List.replicate 1 (warpAffine imgHalf (finalT pts0) 600 800)) 1,
   List.replicate 1 (finalT pts0), tpOf pts0⟩

/-- The pipeline output on the concrete two-photo batch of copies of
`⟨pts0, imgHalf⟩`. -/
noncomputable def out2 : PipelineOutput :=
  ⟨List.replicate 2 (warpAffine imgHalf (finalT pts0) 600 800),
   compositeAverage (List.replicate 2 (warpAffine imgHalf (finalT pts0) 600 800)) 2,
   List.replicate 2 (finalT pts0), tpOf pts0⟩

/-- C4: `third_point(a, b)` rotates `a` around `b` by π/3 — componentwise
`new_x = cos(π/3)·(a.x−b.x) − sin(π/3)·(a.y−b.y) + b.x` and
`new_y = sin(π/3)·(a.x−b.x) + cos(π/3)·(a.y−b.y) + b.y` — so that
`{a, b, c}` is equilateral (equal squared side lengths), and the three
regression inputs give exactly `(1, −√3)`, `(√3, 1)` and `(3, 2−√3)`,
whose coordinates round at three decimals to `(1.0, −1.732)`,
`(1.732, 1.0)` and `(3.0, 0.268)`. -/
theorem third_point_spec :
    (∀ a b : Point, calculate_third_equilateral_point a b =
      (Real.cos (Real.pi / 3) * (a.1 - b.1) - Real.sin (Real.pi / 3) * (a.2 - b.2) + b.1,
       Real.sin (Real.pi / 3) * (a.1 - b.1) + Real.cos (Real.pi / 3) * (a.2 - b.2) + b.2)) ∧
    (∀ a b : Point,
      ((calculate_third_equilateral_point a b).1 - b.1) ^ 2
          + ((calculate_third_equilateral_point a b).2 - b.2) ^ 2
        = (a.1 - b.1) ^ 2 + (a.2 - b.2) ^ 2 ∧
      ((calculate_third_equilateral_point a b).1 - a.1) ^ 2
          + ((calculate_third_equilateral_point a b).2 - a.2) ^ 2
        = (a.1 - b.1) ^ 2 + (a.2 - b.2) ^ 2) ∧
    (calculate_third_equilateral_point (0, 0) (2, 0) = (1, -Real.sqrt 3) ∧
      |(-Real.sqrt 3) - (-1.732)| ≤ 0.0005) ∧
    (calculate_third_equilateral_point (0, 0) (0, 2) = (Real.sqrt 3, 1) ∧
      |Real.sqrt 3 - 1.732| ≤ 0.0005) ∧
    (calculate_third_equilateral_point (2, 2) (4, 2) = (3, 2 - Real.sqrt 3) ∧
      |(2 - Real.sqrt 3) - 0.268| ≤ 0.0005) := by
  have h3 : Real.sqrt 3 ^ 2 = 3 := Real.sq_sqrt (by norm_num)
  have hnn : (0 : ℝ) ≤ Real.sqrt 3 := Real.sqrt_nonneg 3
  have hub : Real.sqrt 3 ≤ 1.7325 := by
    nlinarith [sq_nonneg (Real.sqrt 3 - 1.7325)]
  have hlb : (1.7315 : ℝ) ≤ Real.sqrt 3 := by
    nlinarith [sq_nonneg (Real.sqrt 3 + 1.7315)]
  refine ⟨fun a b => rfl, fun a b => ?_, ⟨?_, ?_⟩, ⟨?_, ?_⟩, ⟨?_, ?_⟩⟩
  · simp only [calculate_third_equilateral_point, COS_PI3, SIN_PI3, PI3,
      Real.cos_pi_div_three, Real.sin_pi_div_three]
    constructor
    · linear_combination (((a.2 - b.2) ^ 2) / 4 + ((a.1 - b.1) ^ 2) / 4) * h3
    · linear_combination (((a.2 - b.2) ^ 2) / 4 + ((a.1 - b.1) ^ 2) / 4) * h3
  · simp only [calculate_third_equilateral_point, COS_PI3, SIN_PI3, PI3,
      Real.cos_pi_div_three, Real.sin_pi_div_three, Prod.mk.injEq]
    constructor <;> ring
  · rw [abs_le]; constructor <;> linarith
  · simp only [calculate_third_equilateral_point, COS_PI3, SIN_PI3, PI3,
      Real.cos_pi_div_three, Real.sin_pi_div_three, Prod.mk.injEq]
    constructor <;> ring
  · rw [abs_le]; constructor <;> linarith
  · simp only [calculate_third_equilateral_point, COS_PI3, SIN_PI3, PI3,
      Real.cos_pi_div_three, Real.sin_pi_div_three, Prod.mk.injEq]
    constructor <;> ring
  · rw [abs_le]; constructor <;> linarith

/-! ### Helper lemmas on the least-squares similarity estimator -/

lemma den3_zero_forces_eq (p q c : Point) (h : den3 p q c = 0) : p = q := by
  unfold den3 at h
  have s1 := sq_nonneg (p.1 - (p.1 + q.1 + c.1) / 3)
  have s2 := sq_nonneg (p.2 - (p.2 + q.2 + c.2) / 3)
  have s3 := sq_nonneg (q.1 - (p.1 + q.1 + c.1) / 3)
  have s4 := sq_nonneg (q.2 - (p.2 + q.2 + c.2) / 3)
  have s5 := sq_nonneg (c.1 - (p.1 + q.1 + c.1) / 3)
  have s6 := sq_nonneg (c.2 - (p.2 + q.2 + c.2) / 3)
  have hx1 : (p.1 - (p.1 + q.1 + c.1) / 3) ^ 2 = 0 := by linarith
  have hx2 : (q.1 - (p.1 + q.1 + c.1) / 3) ^ 2 = 0 := by linarith
  have hy1 : (p.2 - (p.2 + q.2 + c.2) / 3) ^ 2 = 0 := by linarith
  have hy2 : (q.2 - (p.2 + q.2 + c.2) / 3) ^ 2 = 0 := by linarith
  have e1 := (pow_eq_zero_iff (by norm_num : (2 : ℕ) ≠ 0)).mp hx1
  have e2 := (pow_eq_zero_iff (by norm_num : (2 : ℕ) ≠ 0)).mp hx2
  have e3 := (pow_eq_zero_iff (by norm_num : (2 : ℕ) ≠ 0)).mp hy1
  have e4 := (pow_eq_zero_iff (by norm_num : (2 : ℕ) ≠ 0)).mp hy2
  exact Prod.ext (by linarith) (by linarith)

lemma centroidX_three (p1 p2 p3 : Point) :
    centroidX [p1, p2, p3] = (p1.1 + p2.1 + p3.1) / 3 := by
  simp [centroidX]
  ring

lemma centroidY_three (p1 p2 p3 : Point) :
    centroidY [p1, p2, p3] = (p1.2 + p2.2 + p3.2) / 3 := by
  simp [centroidY]
  ring

lemma lsqDen_three (p1 p2 p3 : Point) :
    lsqDen [p1, p2, p3] = den3 p1 p2 p3 := by
  simp [lsqDen, centroidX_three, centroidY_three, den3]
  ring

lemma lsqNa_exact (p1 p2 p3 : Point) (a b tx ty : ℝ) :
    lsqNa [p1, p2, p3] [applyAff (simAff a b tx ty) p1, applyAff (simAff a b tx ty) p2,
      applyAff (simAff a b tx ty) p3] = a * lsqDen [p1, p2, p3] := by
  simp [lsqNa, lsqDen, centroidX, centroidY, applyAff, simAff]
  ring

lemma lsqNb_exact (p1 p2 p3 : Point) (a b tx ty : ℝ) :
    lsqNb [p1, p2, p3] [applyAff (simAff a b tx ty) p1, applyAff (simAff a b tx ty) p2,
      applyAff (simAff a b tx ty) p3] = b * lsqDen [p1, p2, p3] := by
  simp [lsqNb, lsqDen, centroidX, centroidY, applyAff, simAff]
  ring

lemma centroidX_map_sim (p1 p2 p3 : Point) (a b tx ty : ℝ) :
    centroidX [applyAff (simAff a b tx ty) p1, applyAff (simAff a b tx ty) p2,
      applyAff (simAff a b tx ty) p3]
      = a * centroidX [p1, p2, p3] - b * centroidY [p1, p2, p3] + tx := by
  simp [centroidX, centroidY, applyAff, simAff]
  ring

lemma centroidY_map_sim (p1 p2 p3 : Point) (a b tx ty : ℝ) :
    centroidY [applyAff (simAff a b tx ty) p1, applyAff (simAff a b tx ty) p2,
      applyAff (simAff a b tx ty) p3]
      = b * centroidX [p1, p2, p3] + a * centroidY [p1, p2, p3] + ty := by
  simp [centroidX, centroidY, applyAff, simAff]
  ring

/-- When a direct similarity maps the three source points exactly to the
three target points and the RANSAC guard accepts the sample, the
least-squares fit recovers that similarity (zero residual). -/
lemma estimateRigid_exact (p1 p2 p3 : Point) (a b tx ty : ℝ)
    (hg : ¬ ransacDegenerate p1 p2 p3 (applyAff (simAff a b tx ty) p1)
      (applyAff (simAff a b tx ty) p2) (applyAff (simAff a b tx ty) p3)) :
    estimateRigidTransform [p1, p2, p3]
      [applyAff (simAff a b tx ty) p1, applyAff (simAff a b tx ty) p2,
       applyAff (simAff a b tx ty) p3] = some (simAff a b tx ty) := by
  have hden : den3 p1 p2 p3 ≠ 0 := fun h0 =>
    hg (Or.inl (den3_zero_forces_eq p1 p2 p3 h0))
  have hD : lsqDen [p1, p2, p3] ≠ 0 := by rw [lsqDen_three]; exact hden
  have hA : lsqNa [p1, p2, p3] [applyAff (simAff a b tx ty) p1,
      applyAff (simAff a b tx ty) p2, applyAff (simAff a b tx ty) p3]
      / lsqDen [p1, p2, p3] = a := by
    rw [lsqNa_exact]; exact mul_div_cancel_right₀ a hD
  have hB : lsqNb [p1, p2, p3] [applyAff (simAff a b tx ty) p1,
      applyAff (simAff a b tx ty) p2, applyAff (simAff a b tx ty) p3]
      / lsqDen [p1, p2, p3] = b := by
    rw [lsqNb_exact]; exact mul_div_cancel_right₀ b hD
  simp only [estimateRigidTransform]
  rw [if_neg hg, if_neg hD, hA, hB, centroidX_map_sim, centroidY_map_sim]
  ring_nf

lemma d2_ne_of_ne {p q : Point} (h : p ≠ q) :
    (q.1 - p.1) ^ 2 + (q.2 - p.2) ^ 2 ≠ 0 := by
  intro h0
  apply h
  have h1 : (q.1 - p.1) ^ 2 = 0 :=
    le_antisymm (by linarith [sq_nonneg (q.2 - p.2)]) (sq_nonneg _)
  have h2 : (q.2 - p.2) ^ 2 = 0 :=
    le_antisymm (by linarith [sq_nonneg (q.1 - p.1)]) (sq_nonneg _)
  have e1 := (pow_eq_zero_iff (by norm_num : (2 : ℕ) ≠ 0)).mp h1
  have e2 := (pow_eq_zero_iff (by norm_num : (2 : ℕ) ≠ 0)).mp h2
  exact Prod.ext (by linarith) (by linarith)

lemma simFromPairs_maps_fst (p q t u : Point) :
    applyAff (simFromPairs p q t u) p = t := by
  refine Prod.ext ?_ ?_ <;> simp [simFromPairs, simAff, applyAff] <;> ring

lemma simFromPairs_maps_snd (p q t u : Point) (h : p ≠ q) :
    applyAff (simFromPairs p q t u) q = u := by
  have hd2 := d2_ne_of_ne h
  refine Prod.ext ?_ ?_ <;> simp only [simFromPairs, simAff, applyAff] <;>
    field_simp <;> ring

lemma simAff_third (a b tx ty : ℝ) (r s : Point) :
    applyAff (simAff a b tx ty) (calculate_third_equilateral_point r s)
      = calculate_third_equilateral_point (applyAff (simAff a b tx ty) r)
          (applyAff (simAff a b tx ty) s) := by
  refine Prod.ext ?_ ?_ <;>
    simp only [simAff, applyAff, calculate_third_equilateral_point] <;> ring

lemma third_point_self (p : Point) : calculate_third_equilateral_point p p = p := by
  simp [calculate_third_equilateral_point]

lemma third_sqd1 (p q : Point) :
    ((calculate_third_equilateral_point p q).1 - p.1) ^ 2
      + ((calculate_third_equilateral_point p q).2 - p.2) ^ 2
      = (q.1 - p.1) ^ 2 + (q.2 - p.2) ^ 2 := by
  have h3 : Real.sqrt 3 ^ 2 = 3 := Real.sq_sqrt (by norm_num)
  simp only [calculate_third_equilateral_point, COS_PI3, SIN_PI3, PI3,
    Real.cos_pi_div_three, Real.sin_pi_div_three]
  linear_combination (((q.1 - p.1) ^ 2 + (q.2 - p.2) ^ 2) / 4) * h3

lemma third_sqd2 (p q : Point) :
    ((calculate_third_equilateral_point p q).1 - q.1) ^ 2
      + ((calculate_third_equilateral_point p q).2 - q.2) ^ 2
      = (q.1 - p.1) ^ 2 + (q.2 - p.2) ^ 2 := by
  have h3 : Real.sqrt 3 ^ 2 = 3 := Real.sq_sqrt (by norm_num)
  simp only [calculate_third_equilateral_point, COS_PI3, SIN_PI3, PI3,
    Real.cos_pi_div_three, Real.sin_pi_div_three]
  linear_combination (((q.1 - p.1) ^ 2 + (q.2 - p.2) ^ 2) / 4) * h3

lemma third_ne_fst {p q : Point} (h : p ≠ q) :
    calculate_third_equilateral_point p q ≠ p := by
  intro he
  apply d2_ne_of_ne h
  rw [← third_sqd1 p q, he]
  simp

lemma third_ne_snd {p q : Point} (h : p ≠ q) :
    calculate_third_equilateral_point p q ≠ q := by
  intro he
  apply d2_ne_of_ne h
  rw [← third_sqd2 p q, he]
  simp

/-- The cross term of a pair extended by its equilateral third point:
minus `sin(π/3)` times the squared pair distance.  Pure ring identity. -/
lemma cross2_third (p q : Point) :
    cross2 p q (calculate_third_equilateral_point p q)
      = -(SIN_PI3 * ((q.1 - p.1) ^ 2 + (q.2 - p.2) ^ 2)) := by
  unfold cross2 calculate_third_equilateral_point
  ring

/-- A pair of distinct points extended by its equilateral third point
passes the relative-collinearity check of the RANSAC guard with a wide
margin (`sin(π/3) ≈ 0.866` against the `0.01` threshold). -/
lemma guard_margin {p q : Point} (h : p ≠ q) :
    ¬ (|cross2 p q (calculate_third_equilateral_point p q)|
        < 0.01 * Real.sqrt ((q.1 - p.1) ^ 2 + (q.2 - p.2) ^ 2)
        * Real.sqrt (((calculate_third_equilateral_point p q).1 - p.1) ^ 2
            + ((calculate_third_equilateral_point p q).2 - p.2) ^ 2)) := by
  intro hlt
  have hd0 : (q.1 - p.1) ^ 2 + (q.2 - p.2) ^ 2 ≠ 0 := d2_ne_of_ne h
  have hdnn : (0 : ℝ) ≤ (q.1 - p.1) ^ 2 + (q.2 - p.2) ^ 2 := by positivity
  have hdpos : (0 : ℝ) < (q.1 - p.1) ^ 2 + (q.2 - p.2) ^ 2 :=
    lt_of_le_of_ne hdnn (Ne.symm hd0)
  have hsin : SIN_PI3 = Real.sqrt 3 / 2 := by
    unfold SIN_PI3 PI3; exact Real.sin_pi_div_three
  have hsnn : (0 : ℝ) ≤ SIN_PI3 := by rw [hsin]; positivity
  have h3 : Real.sqrt 3 ^ 2 = 3 := Real.sq_sqrt (by norm_num)
  have h3lb : (1.7315 : ℝ) ≤ Real.sqrt 3 := by
    nlinarith [Real.sqrt_nonneg 3, sq_nonneg (Real.sqrt 3 + 1.7315)]
  rw [cross2_third, third_sqd1, mul_assoc, Real.mul_self_sqrt hdnn, abs_neg,
    abs_of_nonneg (mul_nonneg hsnn hdnn), hsin] at hlt
  nlinarith [mul_le_mul_of_nonneg_right h3lb hdnn]

lemma calculate_transform_two (p q t u : Point) :
    calculate_transform [p, q] [t, u] =
      estimateRigidTransform [p, q, calculate_third_equilateral_point p q]
        [t, u, calculate_third_equilateral_point t u] := by
  simp [calculate_transform]

lemma calculate_transform_three (p1 p2 p3 q1 q2 q3 : Point) :
    calculate_transform [p1, p2, p3] [q1, q2, q3]
      = estimateRigidTransform [p1, p2, p3] [q1, q2, q3] := by
  simp [calculate_transform]

/-- Two distinct pairs, each extended by its equilateral third point, pass
every check of the RANSAC degeneracy guard. -/
lemma ransac_guard_ok {p q t u : Point} (hpq : p ≠ q) (htu : t ≠ u) :
    ¬ ransacDegenerate p q (calculate_third_equilateral_point p q) t u
        (calculate_third_equilateral_point t u) := by
  intro hcase
  unfold ransacDegenerate at hcase
  rcases hcase with h | h | h | h | h | h | h | h
  · exact hpq h
  · exact third_ne_fst hpq h.symm
  · exact third_ne_snd hpq h.symm
  · exact htu h
  · exact third_ne_fst htu h.symm
  · exact third_ne_snd htu h.symm
  · exact guard_margin hpq h
  · exact guard_margin htu h

/-- The similarity taking a photo's two pupils to two distinct targets is
exactly what the pass-1 estimation returns (when the pupils are
distinct). -/
lemma calcT_pair_eq (p q t u : Point) (hne : p ≠ q) (htu : t ≠ u) :
    calculate_transform [p, q] [t, u] = some (simFromPairs p q t u) := by
  obtain ⟨a, b, tx, ty, hS⟩ :
      ∃ a b tx ty, simFromPairs p q t u = simAff a b tx ty := ⟨_, _, _, _, rfl⟩
  have hfst := simFromPairs_maps_fst p q t u
  have hsnd := simFromPairs_maps_snd p q t u hne
  have hguard := ransac_guard_ok hne htu
  rw [hS] at hfst hsnd ⊢
  rw [calculate_transform_two]
  rw [← hfst, ← hsnd, ← simAff_third] at hguard ⊢
  exact estimateRigid_exact p q _ a b tx ty hguard

lemma pupil_points_eq : pupil_points = ((210, 320), (390, 320)) := by
  unfold pupil_points calculate_pupil_points
  have h1 : (600 : ℝ) * 0.35 = ((210 : ℤ) : ℝ) := by norm_num
  have h2 : (800 : ℝ) * 0.4 = ((320 : ℤ) : ℝ) := by norm_num
  have h3 : (600 : ℝ) * (1 - 0.35) = ((390 : ℤ) : ℝ) := by norm_num
  rw [h1, h2, h3, Int.floor_intCast, Int.floor_intCast, Int.floor_intCast]
  norm_num

lemma pass1_one_eq {image_points : List Point}
    (hne : image_points.getD 0 (0, 0) ≠ image_points.getD 3 (0, 0)) :
    pass1_one image_points = some (pass1Sim image_points, tpOf image_points) := by
  have htu : pupil_points.1 ≠ pupil_points.2 := by
    rw [pupil_points_eq]
    norm_num [Prod.ext_iff]
  unfold pass1_one pass1Sim tpOf
  rw [calcT_pair_eq _ _ _ _ hne htu]
  rfl

lemma mapOpt_some_length {α β : Type} {g : α → Option β} :
    ∀ {l : List α} {r : List β}, mapOpt g l = some r → r.length = l.length := by
  intro l
  induction l with
  | nil => intro r h; simp [mapOpt] at h; simp [← h]
  | cons x xs ih =>
    intro r h
    unfold mapOpt at h
    cases hx : g x with
    | none => rw [hx] at h; simp at h
    | some y =>
      rw [hx] at h
      cases hxs : mapOpt g xs with
      | none => rw [hxs] at h; simp at h
      | some ys =>
        rw [hxs] at h
        simp at h
        rw [← h]
        simp [ih hxs]

lemma mapOpt_some_getD {α β : Type} {g : α → Option β} (da : α) (db : β) :
    ∀ {l : List α} {r : List β}, mapOpt g l = some r →
      ∀ i, i < l.length → g (l.getD i da) = some (r.getD i db) := by
  intro l
  induction l with
  | nil => intro r _ i hi; simp at hi
  | cons x xs ih =>
    intro r h i hi
    unfold mapOpt at h
    cases hx : g x with
    | none => rw [hx] at h; simp at h
    | some y =>
      rw [hx] at h
      cases hxs : mapOpt g xs with
      | none => rw [hxs] at h; simp at h
      | some ys =>
        rw [hxs] at h
        simp at h
        cases i with
        | zero => simp [← h, hx]
        | succ j =>
          rw [← h]
          simp only [List.getD_cons_succ]
          exact ih hxs j (by simpa using hi)

lemma mapOpt_replicate {α β : Type} {g : α → Option β} {x : α} {y : β}
    (h : g x = some y) : ∀ n, mapOpt g (List.replicate n x) = some (List.replicate n y) := by
  intro n
  induction n with
  | zero => simp [mapOpt]
  | succ m ih => simp [List.replicate_succ, mapOpt, h, ih]

lemma pass1_one_ne {image_points : List Point} {res : Aff × List Point}
    (h : pass1_one image_points = some res) :
    image_points.getD 0 (0, 0) ≠ image_points.getD 3 (0, 0) := by
  intro he
  unfold pass1_one at h
  rw [calculate_transform_two, ← he, third_point_self] at h
  have hg : ransacDegenerate (image_points.getD 0 (0, 0)) (image_points.getD 0 (0, 0))
      (image_points.getD 0 (0, 0)) pupil_points.1 pupil_points.2
      (calculate_third_equilateral_point pupil_points.1 pupil_points.2) := Or.inl rfl
  simp only [estimateRigidTransform] at h
  rw [if_pos hg] at h
  simp at h

/-- C2: in pass 1 each photo's rigid transform is estimated from landmark
slots `[0]` and `[3]` against the canonical pupil targets
`(600·0.35, 800·0.4)` and `(600·(1−0.35), 800·0.4)`, that transform maps the
two pupil slots exactly onto those targets, it is applied to all landmark
points of the photo (the image is untouched: `pass1` consumes only landmark
lists), and one transformed landmark set is produced per photo. -/
theorem pass1_rigid_alignment (batch : List (List Point))
    (res : List (Aff × List Point)) (h : pass1 batch = some res) :
    res.length = batch.length ∧
    ∀ i, i < batch.length →
      pass1_one (batch.getD i []) = some (res.getD i (simAff 0 0 0 0, [])) ∧
      (res.getD i (simAff 0 0 0 0, [])).1 = pass1Sim (batch.getD i []) ∧
      (res.getD i (simAff 0 0 0 0, [])).2
        = (batch.getD i []).map (applyAff (pass1Sim (batch.getD i []))) ∧
      applyAff (pass1Sim (batch.getD i [])) ((batch.getD i []).getD 0 (0, 0))
        = ((600 : ℝ) * 0.35, (800 : ℝ) * 0.4) ∧
      applyAff (pass1Sim (batch.getD i [])) ((batch.getD i []).getD 3 (0, 0))
        = ((600 : ℝ) * (1 - 0.35), (800 : ℝ) * 0.4) := by
  refine ⟨mapOpt_some_length h, fun i hi => ?_⟩
  have hg := mapOpt_some_getD [] (simAff 0 0 0 0, []) h i hi
  have hne := pass1_one_ne hg
  have he := pass1_one_eq hne
  have hval : (pass1Sim (batch.getD i []), tpOf (batch.getD i []))
      = res.getD i (simAff 0 0 0 0, []) := Option.some.inj (he.symm.trans hg)
  have hm0 : applyAff (pass1Sim (batch.getD i [])) ((batch.getD i []).getD 0 (0, 0))
      = pupil_points.1 := simFromPairs_maps_fst _ _ _ _
  have hm3 : applyAff (pass1Sim (batch.getD i [])) ((batch.getD i []).getD 3 (0, 0))
      = pupil_points.2 := simFromPairs_maps_snd _ _ _ _ hne
  refine ⟨hg, ?_, ?_, ?_, ?_⟩
  · rw [← hval]
  · rw [← hval]; rfl
  · rw [hm0, pupil_points_eq]; norm_num
  · rw [hm3, pupil_points_eq]; norm_num

/-- Witness for `pass1_rigid_alignment` at the concrete batch `[pts0]`. -/
theorem pass1_rigid_alignment_witness :
    pass1 [pts0] = some [(pass1Sim pts0, tpOf pts0)] ∧
    ([(pass1Sim pts0, tpOf pts0)].length = [pts0].length ∧
     ∀ i, i < [pts0].length →
       pass1_one ([pts0].getD i []) = some ([(pass1Sim pts0, tpOf pts0)].getD i
         (simAff 0 0 0 0, [])) ∧
       ([(pass1Sim pts0, tpOf pts0)].getD i (simAff 0 0 0 0, [])).1
         = pass1Sim ([pts0].getD i []) ∧
       ([(pass1Sim pts0, tpOf pts0)].getD i (simAff 0 0 0 0, [])).2
         = ([pts0].getD i []).map (applyAff (pass1Sim ([pts0].getD i []))) ∧
       applyAff (pass1Sim ([pts0].getD i [])) (([pts0].getD i []).getD 0 (0, 0))
         = ((600 : ℝ) * 0.35, (800 : ℝ) * 0.4) ∧
       applyAff (pass1Sim ([pts0].getD i [])) (([pts0].getD i []).getD 3 (0, 0))
         = ((600 : ℝ) * (1 - 0.35), (800 : ℝ) * 0.4)) := by
  have hne : pts0.getD 0 (0, 0) ≠ pts0.getD 3 (0, 0) := by
    norm_num [pts0, Prod.ext_iff]
  have h : pass1 [pts0] = some [(pass1Sim pts0, tpOf pts0)] := by
    unfold pass1 mapOpt
    rw [pass1_one_eq hne]
    rfl
  exact ⟨h, pass1_rigid_alignment _ _ h⟩

lemma range_map_getD {α : Type} (d : α) :
    ∀ l : List α, (List.range l.length).map (fun j => l.getD j d) = l := by
  intro l
  induction l with
  | nil => simp
  | cons x xs ih =>
    rw [List.length_cons, List.range_succ_eq_map, List.map_cons, List.map_map]
    have hc : ((fun j => (x :: xs).getD j d) ∘ (· + 1)) = (fun j => xs.getD j d) := by
      funext j
      simp
    rw [List.getD_cons_zero, hc, ih]

/-- C7: the exact affine solve, given three non-collinear source points,
returns a 2×3 transform mapping each source point of the correspondence
exactly onto its target (in the real-arithmetic model the residual is 0,
below any positive epsilon). -/
theorem affine_solve_exact (s1 s2 s3 t1 t2 t3 : Point) (h : ¬ collinear3 s1 s2 s3) :
    applyAff (getAffineTransform s1 s2 s3 t1 t2 t3) s1 = t1 ∧
    applyAff (getAffineTransform s1 s2 s3 t1 t2 t3) s2 = t2 ∧
    applyAff (getAffineTransform s1 s2 s3 t1 t2 t3) s3 = t3 := by
  unfold collinear3 cross2 at h
  refine ⟨?_, ?_, ?_⟩ <;> refine Prod.ext ?_ ?_ <;>
      simp only [getAffineTransform, applyAff, if_neg h] <;>
    field_simp <;> ring

/-- Witness for `affine_solve_exact` at a concrete correspondence. -/
theorem affine_solve_exact_witness :
    ¬ collinear3 ((0 : ℝ), (0 : ℝ)) (1, 0) (0, 1) ∧
    (applyAff (getAffineTransform ((0 : ℝ), (0 : ℝ)) (1, 0) (0, 1) (10, 20) (30, 40) (50, 60))
        ((0 : ℝ), (0 : ℝ)) = (10, 20) ∧
     applyAff (getAffineTransform ((0 : ℝ), (0 : ℝ)) (1, 0) (0, 1) (10, 20) (30, 40) (50, 60))
        ((1 : ℝ), (0 : ℝ)) = (30, 40) ∧
     applyAff (getAffineTransform ((0 : ℝ), (0 : ℝ)) (1, 0) (0, 1) (10, 20) (30, 40) (50, 60))
        ((0 : ℝ), (1 : ℝ)) = (50, 60)) := by
  have h : ¬ collinear3 ((0 : ℝ), (0 : ℝ)) (1, 0) (0, 1) := by
    unfold collinear3 cross2; norm_num
  exact ⟨h, affine_solve_exact _ _ _ _ _ _ h⟩

/-- C1 (code behaviour at degenerate inputs): on an exactly collinear
3-point correspondence the rigid estimator used by passes 1–2 fails
silently — `cv2.estimateRigidTransform`'s RANSAC guard rejects every sample
and an empty matrix, Python `None`, is returned, which the pass-2 loop just
stores in the unused `all_transforms2` list — and the pass-3 exact affine
solve on collinear source points returns the zeroed matrix of OpenCV's
failed solve, which flows into the warp.  Neither path raises anything; no
`DegenerateGeometryError` exists in the program. -/
theorem collinear_estimation_no_error :
    collinear3 ((0 : ℝ), (0 : ℝ)) (1, 0) (2, 0) ∧
    calculate_transform [((0 : ℝ), (0 : ℝ)), (1, 0), (2, 0)]
        [((0 : ℝ), (0 : ℝ)), (1, 0), (2, 0)] = none ∧
    pass2_one [((0 : ℝ), (0 : ℝ)), (9, 9), (9, 9), (1, 0), (2, 0)]
        [((0 : ℝ), (0 : ℝ)), (9, 9), (9, 9), (1, 0), (2, 0)] = none ∧
    collinear3 ((0 : ℝ), (0 : ℝ)) (1, 1) (2, 2) ∧
    getAffineTransform ((0 : ℝ), (0 : ℝ)) (1, 1) (2, 2) (5, 6) (7, 8) (9, 10)
      = ⟨0, 0, 0, 0, 0, 0⟩ := by
  have hsq1 : Real.sqrt 1 = 1 := Real.sqrt_one
  have hsq4 : Real.sqrt 4 = 2 := by
    rw [show (4 : ℝ) = 2 ^ 2 by norm_num, Real.sqrt_sq (by norm_num : (0 : ℝ) ≤ 2)]
  have hg : ransacDegenerate ((0 : ℝ), (0 : ℝ)) (1, 0) (2, 0)
      ((0 : ℝ), (0 : ℝ)) (1, 0) (2, 0) := by
    unfold ransacDegenerate cross2
    refine Or.inr (Or.inr (Or.inr (Or.inr (Or.inr (Or.inr (Or.inl ?_))))))
    norm_num [hsq1, hsq4]
  have hnone : calculate_transform [((0 : ℝ), (0 : ℝ)), (1, 0), (2, 0)]
      [((0 : ℝ), (0 : ℝ)), (1, 0), (2, 0)] = none := by
    rw [calculate_transform_three]
    simp only [estimateRigidTransform]
    rw [if_pos hg]
  refine ⟨by unfold collinear3 cross2; norm_num, hnone, ?_,
    by unfold collinear3 cross2; norm_num, ?_⟩
  · unfold pass2_one
    simpa using hnone
  · unfold getAffineTransform
    rw [if_pos (by norm_num)]

/-- C5 (code behaviour on an empty batch): with zero photos the pass-1 loop
runs vacuously (producing the empty result list, not an error), and the run
then dies at the landmark-averaging step — `np.average` over zero photos —
producing no pipeline output; no dedicated empty-batch error is raised
before the passes. -/
theorem empty_batch_behaviour :
    runPipeline [] = none ∧ pass1 [] = some [] ∧
    averagedPoints ([] : List (List Point)) = none :=
  ⟨rfl, rfl, rfl⟩

/-- C6: the averaged landmark set is the per-slot arithmetic mean over the
photos of the pass-1 transformed landmark sets, and for a batch holding
exactly one landmark set it equals that set exactly. -/
theorem averaged_landmarks_mean :
    (∀ (t : List Point) (rest : List (List Point)),
      averagedPoints (t :: rest) = some ((List.range t.length).map (fun j =>
        (((t :: rest).map (fun tp => (tp.getD j (0, 0)).1)).sum / ((t :: rest).length : ℝ),
         ((t :: rest).map (fun tp => (tp.getD j (0, 0)).2)).sum / ((t :: rest).length : ℝ))))) ∧
    (∀ tp : List Point, averagedPoints [tp] = some tp) := by
  refine ⟨fun t rest => rfl, fun tp => ?_⟩
  show averagedPoints [tp] = some tp
  simp only [averagedPoints, List.map_cons, List.map_nil, List.sum_cons, List.sum_nil,
    List.length_cons, List.length_nil, add_zero, zero_add, Nat.cast_one, div_one,
    Nat.cast_ofNat, Prod.mk.eta]
  rw [range_map_getD]

/-- C10: the pass-2 estimates influence nothing: the pipeline computes
exactly the same per-photo outputs, average image, final transforms and
averaged landmarks as the pipeline with the pass-2 loop deleted, because
pass 3 reads only the original landmark sets and the averaged landmarks. -/
theorem pass2_is_dead_code :
    ∀ photos : List PhotoRecord, runPipeline photos = runPipelineNoPass2 photos :=
  fun _ => rfl

lemma averaged_replicate (tp : List Point) (m : ℕ) :
    averagedPoints (List.replicate (m + 1) tp) = some tp := by
  have hm : ((m : ℝ) + 1) ≠ 0 := by positivity
  have hv : ∀ v : ℝ, (v + (m : ℝ) * v) / ((m : ℝ) + 1) = v := by
    intro v; field_simp; ring
  rw [List.replicate_succ]
  simp only [averagedPoints, List.map_cons, List.map_replicate, List.sum_cons,
    List.sum_replicate, List.length_cons, List.length_replicate, nsmul_eq_mul,
    Nat.cast_add, Nat.cast_one, hv, Prod.mk.eta]
  rw [range_map_getD]

lemma zipWith_replicate_same {α β γ : Type} (g : α → β → γ) (x : α) (y : β) :
    ∀ n, List.zipWith g (List.replicate n x) (List.replicate n y)
      = List.replicate n (g x y) := by
  intro n
  induction n with
  | zero => rfl
  | succ m ih => simp [List.replicate_succ, ih]

/-- On a batch of `n` copies of one photo with distinct pupils the whole
pipeline succeeds, every final transform is `finalT pts` and every output
is the one warped image. -/
lemma runPipeline_replicate (n : ℕ) (hn : 0 < n) (pts : List Point) (img : Image)
    (hne : pts.getD 0 (0, 0) ≠ pts.getD 3 (0, 0)) :
    runPipeline (List.replicate n ⟨pts, img⟩) =
      some ⟨List.replicate n (warpAffine img (finalT pts) 600 800),
            compositeAverage (List.replicate n (warpAffine img (finalT pts) 600 800)) n,
            List.replicate n (finalT pts), tpOf pts⟩ := by
  obtain ⟨m, rfl⟩ : ∃ m, n = m + 1 := ⟨n - 1, (Nat.succ_pred_eq_of_pos hn).symm⟩
  have h1 : pass1 ((List.replicate (m + 1) (⟨pts, img⟩ : PhotoRecord)).map
      PhotoRecord.points) = some (List.replicate (m + 1) (pass1Sim pts, tpOf pts)) := by
    rw [List.map_replicate]
    exact mapOpt_replicate (pass1_one_eq hne) (m + 1)
  unfold runPipeline
  rw [h1, Option.some_bind, List.map_replicate, averaged_replicate, Option.some_bind]
  simp only [List.map_replicate, List.length_replicate,
    zipWith_replicate_same (fun (r : PhotoRecord) (T : Aff) => warpAffine r.image T 600 800)]
  rfl

/-- C3: whenever the pipeline produces output, each photo's final transform
is the exact 3-point affine solve taking the photo's original landmark
slots `[0], [3], [4]` directly onto the averaged slots `[0], [3], [4]` —
the pass-1/pass-2 similarity estimates are not composed into it — and each
output image is the photo's original image warped exactly once, with that
single transform. -/
theorem pass3_final_transform (photos : List PhotoRecord) (out : PipelineOutput)
    (hout : runPipeline photos = some out) :
    out.transforms3 = (photos.map PhotoRecord.points).map
      (fun pts => getAffineTransform (pts.getD 0 (0, 0)) (pts.getD 3 (0, 0))
        (pts.getD 4 (0, 0)) (out.avgPts.getD 0 (0, 0)) (out.avgPts.getD 3 (0, 0))
        (out.avgPts.getD 4 (0, 0))) ∧
    out.outputs = List.zipWith (fun r T => warpAffine r.image T 600 800)
      photos out.transforms3 := by
  unfold runPipeline at hout
  cases h1 : pass1 (photos.map PhotoRecord.points) with
  | none => rw [h1] at hout; simp at hout
  | some p1 =>
    rw [h1, Option.some_bind] at hout
    cases h2 : averagedPoints (p1.map Prod.snd) with
    | none => rw [h2] at hout; simp at hout
    | some avg =>
      rw [h2, Option.some_bind] at hout
      have := Option.some.inj hout
      subst this
      exact ⟨rfl, rfl⟩

/-- Witness for `pass3_final_transform` on the concrete one-photo batch. -/
theorem pass3_final_transform_witness :
    runPipeline (List.replicate 1 ⟨pts0, imgHalf⟩) = some out0 ∧
    (out0.transforms3 = ((List.replicate 1 (⟨pts0, imgHalf⟩ : PhotoRecord)).map
        PhotoRecord.points).map
      (fun pts => getAffineTransform (pts.getD 0 (0, 0)) (pts.getD 3 (0, 0))
        (pts.getD 4 (0, 0)) (out0.avgPts.getD 0 (0, 0)) (out0.avgPts.getD 3 (0, 0))
        (out0.avgPts.getD 4 (0, 0))) ∧
     out0.outputs = List.zipWith (fun (r : PhotoRecord) (T : Aff) => warpAffine r.image T 600 800)
       (List.replicate 1 (⟨pts0, imgHalf⟩ : PhotoRecord)) out0.transforms3) := by
  have h : runPipeline (List.replicate 1 ⟨pts0, imgHalf⟩) = some out0 :=
    runPipeline_replicate 1 (by norm_num) pts0 imgHalf (by norm_num [pts0, Prod.ext_iff])
  exact ⟨h, pass3_final_transform _ _ h⟩

/-- C8: on a batch of `n > 0` identical photos the pipeline yields the same
final transform `finalT pts` for every photo, the same warped output image
for every photo, and an average image that agrees pixel-for-pixel (exactly,
in the real-arithmetic model) with each individually aligned output. -/
theorem identical_batch (n : ℕ) (hn : 0 < n) (pts : List Point) (img : Image)
    (hne : pts.getD 0 (0, 0) ≠ pts.getD 3 (0, 0)) :
    runPipeline (List.replicate n ⟨pts, img⟩)
      = some ⟨List.replicate n (warpAffine img (finalT pts) 600 800),
              compositeAverage (List.replicate n (warpAffine img (finalT pts) 600 800)) n,
              List.replicate n (finalT pts), tpOf pts⟩ ∧
    ∀ x y, compositeAverage (List.replicate n (warpAffine img (finalT pts) 600 800)) n x y
      = (warpAffine img (finalT pts) 600 800).pix x y := by
  refine ⟨runPipeline_replicate n hn pts img hne, fun x y => ?_⟩
  have hn' : (n : ℝ) ≠ 0 := Nat.cast_ne_zero.mpr hn.ne'
  unfold compositeAverage
  rw [List.map_replicate, List.sum_replicate, nsmul_eq_mul]
  field_simp

/-- Witness for `identical_batch` on two copies of the concrete photo. -/
theorem identical_batch_witness :
    runPipeline (List.replicate 2 ⟨pts0, imgHalf⟩)
      = some ⟨List.replicate 2 (warpAffine imgHalf (finalT pts0) 600 800),
              compositeAverage (List.replicate 2 (warpAffine imgHalf (finalT pts0) 600 800)) 2,
              List.replicate 2 (finalT pts0), tpOf pts0⟩ ∧
    ∀ x y, compositeAverage (List.replicate 2 (warpAffine imgHalf (finalT pts0) 600 800)) 2 x y
      = (warpAffine imgHalf (finalT pts0) 600 800).pix x y :=
  identical_batch 2 (by norm_num) pts0 imgHalf (by norm_num [pts0, Prod.ext_iff])

lemma sampleAt_bound {I : Image} (hI : ∀ x y, 0 ≤ I.pix x y ∧ I.pix x y ≤ 1) (x y : ℤ) :
    0 ≤ sampleAt I x y ∧ sampleAt I x y ≤ 1 := by
  unfold sampleAt
  split_ifs with h
  · exact hI x y
  · norm_num

lemma bilinear_bound {I : Image} (hI : ∀ x y, 0 ≤ I.pix x y ∧ I.pix x y ≤ 1) (p : Point) :
    0 ≤ bilinear I p ∧ bilinear I p ≤ 1 := by
  unfold bilinear
  dsimp only
  have hfx0 : (0 : ℝ) ≤ p.1 - ((⌊p.1⌋ : ℤ) : ℝ) := sub_nonneg.mpr (Int.floor_le p.1)
  have hfx1 : p.1 - ((⌊p.1⌋ : ℤ) : ℝ) ≤ 1 := by
    have := Int.lt_floor_add_one p.1; linarith
  have hfy0 : (0 : ℝ) ≤ p.2 - ((⌊p.2⌋ : ℤ) : ℝ) := sub_nonneg.mpr (Int.floor_le p.2)
  have hfy1 : p.2 - ((⌊p.2⌋ : ℤ) : ℝ) ≤ 1 := by
    have := Int.lt_floor_add_one p.2; linarith
  have s00 := sampleAt_bound hI ⌊p.1⌋ ⌊p.2⌋
  have s10 := sampleAt_bound hI (⌊p.1⌋ + 1) ⌊p.2⌋
  have s01 := sampleAt_bound hI ⌊p.1⌋ (⌊p.2⌋ + 1)
  have s11 := sampleAt_bound hI (⌊p.1⌋ + 1) (⌊p.2⌋ + 1)
  have w00 : (0 : ℝ) ≤ (1 - (p.1 - ((⌊p.1⌋ : ℤ) : ℝ))) * (1 - (p.2 - ((⌊p.2⌋ : ℤ) : ℝ))) :=
    mul_nonneg (by linarith) (by linarith)
  have w10 : (0 : ℝ) ≤ (p.1 - ((⌊p.1⌋ : ℤ) : ℝ)) * (1 - (p.2 - ((⌊p.2⌋ : ℤ) : ℝ))) :=
    mul_nonneg (by linarith) (by linarith)
  have w01 : (0 : ℝ) ≤ (1 - (p.1 - ((⌊p.1⌋ : ℤ) : ℝ))) * (p.2 - ((⌊p.2⌋ : ℤ) : ℝ)) :=
    mul_nonneg (by linarith) (by linarith)
  have w11 : (0 : ℝ) ≤ (p.1 - ((⌊p.1⌋ : ℤ) : ℝ)) * (p.2 - ((⌊p.2⌋ : ℤ) : ℝ)) :=
    mul_nonneg (by linarith) (by linarith)
  have hw : (1 - (p.1 - ((⌊p.1⌋ : ℤ) : ℝ))) * (1 - (p.2 - ((⌊p.2⌋ : ℤ) : ℝ)))
      + (p.1 - ((⌊p.1⌋ : ℤ) : ℝ)) * (1 - (p.2 - ((⌊p.2⌋ : ℤ) : ℝ)))
      + (1 - (p.1 - ((⌊p.1⌋ : ℤ) : ℝ))) * (p.2 - ((⌊p.2⌋ : ℤ) : ℝ))
      + (p.1 - ((⌊p.1⌋ : ℤ) : ℝ)) * (p.2 - ((⌊p.2⌋ : ℤ) : ℝ)) = 1 := by ring
  constructor
  · have t00 := mul_nonneg w00 s00.1
    have t10 := mul_nonneg w10 s10.1
    have t01 := mul_nonneg w01 s01.1
    have t11 := mul_nonneg w11 s11.1
    linarith
  · have u00 := mul_le_of_le_one_right w00 s00.2
    have u10 := mul_le_of_le_one_right w10 s10.2
    have u01 := mul_le_of_le_one_right w01 s01.2
    have u11 := mul_le_of_le_one_right w11 s11.2
    linarith

lemma warpAffine_bound {I : Image} (hI : ∀ x y, 0 ≤ I.pix x y ∧ I.pix x y ≤ 1)
    (T : Aff) (w h : ℕ) (x y : ℤ) :
    0 ≤ (warpAffine I T w h).pix x y ∧ (warpAffine I T w h).pix x y ≤ 1 :=
  bilinear_bound hI _

lemma exists_of_mem_zipWith {α β γ : Type} {g : α → β → γ} :
    ∀ {as : List α} {bs : List β} {c : γ}, c ∈ List.zipWith g as bs →
      ∃ a ∈ as, ∃ b ∈ bs, c = g a b := by
  intro as
  induction as with
  | nil => intro bs c h; simp at h
  | cons a as ih =>
    intro bs c h
    cases bs with
    | nil => simp at h
    | cons b bs =>
      rw [List.zipWith_cons_cons] at h
      rcases List.mem_cons.mp h with h | h
      · exact ⟨a, List.mem_cons_self a as, b, List.mem_cons_self b bs, h⟩
      · obtain ⟨a', ha', b', hb', he⟩ := ih h
        exact ⟨a', List.mem_cons_of_mem a ha', b', List.mem_cons_of_mem b hb', he⟩

lemma compositeAverage_bound (ws : List Image) (n : ℕ) (hlen : ws.length = n)
    (hb : ∀ W ∈ ws, ∀ x y, 0 ≤ W.pix x y ∧ W.pix x y ≤ 1) (x y : ℤ) :
    0 ≤ compositeAverage ws n x y ∧ compositeAverage ws n x y ≤ 1 := by
  unfold compositeAverage
  constructor
  · apply List.sum_nonneg
    intro v hv
    obtain ⟨W, hW, rfl⟩ := List.mem_map.mp hv
    exact div_nonneg (hb W hW x y).1 (Nat.cast_nonneg n)
  · rcases Nat.eq_zero_or_pos n with h0 | hpos
    · subst h0
      rw [List.length_eq_zero.mp hlen]
      simp
    · have hn' : (0 : ℝ) < (n : ℝ) := by exact_mod_cast hpos
      have hle : ∀ v ∈ ws.map (fun W => W.pix x y / (n : ℝ)), v ≤ 1 / (n : ℝ) := by
        intro v hv
        obtain ⟨W, hW, rfl⟩ := List.mem_map.mp hv
        exact (div_le_div_iff_of_pos_right hn').mpr (hb W hW x y).2
      have hs := List.sum_le_card_nsmul _ _ hle
      rw [List.length_map, hlen, nsmul_eq_mul] at hs
      refine le_trans hs ?_
      rw [mul_one_div]
      rw [div_self (ne_of_gt hn')]

/-- C9: if every input image has all pixel values in `[0, 1]` then every
pixel of the accumulated average image (all-zero initialized, accumulating
`warped / photo_count` per photo) lies in `[0, 1]` when the pipeline
completes. -/
theorem average_pixels_bounded (photos : List PhotoRecord) (out : PipelineOutput)
    (hout : runPipeline photos = some out)
    (hin : ∀ r ∈ photos, ∀ x y, 0 ≤ r.image.pix x y ∧ r.image.pix x y ≤ 1) :
    ∀ x y, 0 ≤ out.average x y ∧ out.average x y ≤ 1 := by
  unfold runPipeline at hout
  cases h1 : pass1 (photos.map PhotoRecord.points) with
  | none => rw [h1] at hout; simp at hout
  | some p1 =>
    rw [h1, Option.some_bind] at hout
    cases h2 : averagedPoints (p1.map Prod.snd) with
    | none => rw [h2] at hout; simp at hout
    | some avg =>
      rw [h2, Option.some_bind] at hout
      have := Option.some.inj hout
      subst this
      intro x y
      apply compositeAverage_bound
      · rw [List.length_zipWith, List.length_map, List.length_map, min_self]
      · intro W hW x' y'
        obtain ⟨r, hr, T, _, rfl⟩ := exists_of_mem_zipWith hW
        exact warpAffine_bound (hin r hr) T 600 800 x' y'

/-- Witness for `average_pixels_bounded` on two copies of a constant-half
image. -/
theorem average_pixels_bounded_witness :
    runPipeline (List.replicate 2 ⟨pts0, imgHalf⟩) = some out2 ∧
    (∀ r ∈ List.replicate 2 (⟨pts0, imgHalf⟩ : PhotoRecord),
      ∀ x y, 0 ≤ r.image.pix x y ∧ r.image.pix x y ≤ 1) ∧
    ∀ x y, 0 ≤ out2.average x y ∧ out2.average x y ≤ 1 := by
  have h : runPipeline (List.replicate 2 ⟨pts0, imgHalf⟩) = some out2 :=
    runPipeline_replicate 2 (by norm_num) pts0 imgHalf (by norm_num [pts0, Prod.ext_iff])
  have hin : ∀ r ∈ List.replicate 2 (⟨pts0, imgHalf⟩ : PhotoRecord),
      ∀ x y, 0 ≤ r.image.pix x y ∧ r.image.pix x y ≤ 1 := by
    intro r hr x y
    rw [List.mem_replicate] at hr
    rw [hr.2]
    norm_num [imgHalf]
  exact ⟨h, hin, average_pixels_bounded _ _ h hin⟩

end Align
